import Mathlib

/-!
Verification of the cross-device synchronization core of the repository
(The Boss / cherry-studio mobile app).  The sync layer is specified in the
planning documents; the service sketches (SyncService, DatabaseSyncAdapter,
ConversationSyncService, OfflineSyncQueue, EncryptionService) are embedded
below together with spec-level models of the external pieces (the Yjs CRDT
merge engine and the tweetnacl box primitives).
-/

namespace BossSync

/-! ## Document Store model (CRDT)

Modelled from the spec: the Document Store's merge engine is the external
Yjs library (`Y.Doc`, `mergeRemoteUpdate`); the repository only calls it.
The spec describes a Document as an ordered sequence of Entries with a
key-value metadata map, merged per Entry by the deterministic tie-break
"higher (timestamp, peerId) wins", residual ties broken deterministically,
deletions recorded as tombstones. -/

/-- One logical unit of a Document's ordered sequence: identifier, payload,
author/role tag, creation timestamp, originating peer, tombstone flag. -/
structure Entry where
  id : Nat
  payload : List Nat
  role : Nat
  timestamp : Nat
  peerId : Nat
  tombstone : Bool
deriving DecidableEq

/-- Injective encoding of a list of naturals. -/
def encList : List Nat → Nat
  | [] => 0
  | x :: xs => Nat.pair x (encList xs) + 1

theorem encList_inj : ∀ {a b : List Nat}, encList a = encList b → a = b
  | [], [], _ => rfl
  | [], _ :: _, h => by simp [encList] at h
  | _ :: _, [], h => by simp [encList] at h
  | x :: xs, y :: ys, h => by
    simp only [encList, Nat.add_left_inj] at h
    obtain ⟨h1, h2⟩ := Nat.pair_eq_pair.mp h
    exact h1 ▸ (encList_inj h2) ▸ rfl

/-- Fully injective residual tie-break encoding of an Entry. -/
def tieEnc (e : Entry) : Nat :=
  Nat.pair e.id (Nat.pair (encList e.payload)
    (Nat.pair e.role (Nat.pair e.timestamp (Nat.pair e.peerId e.tombstone.toNat))))

theorem bool_toNat_inj {a b : Bool} (h : a.toNat = b.toNat) : a = b := by
  cases a <;> cases b <;> simp_all

theorem tieEnc_inj {e u : Entry} (h : tieEnc e = tieEnc u) : e = u := by
  unfold tieEnc at h
  obtain ⟨h1, h2⟩ := Nat.pair_eq_pair.mp h
  obtain ⟨h3, h4⟩ := Nat.pair_eq_pair.mp h2
  obtain ⟨h5, h6⟩ := Nat.pair_eq_pair.mp h4
  obtain ⟨h7, h8⟩ := Nat.pair_eq_pair.mp h6
  obtain ⟨h9, h10⟩ := Nat.pair_eq_pair.mp h8
  cases e; cases u
  simp only [Entry.mk.injEq]
  exact ⟨h1, encList_inj h3, h5, h7, h9, bool_toNat_inj h10⟩

/-- Deterministic total tie-break key: lexicographic on
(timestamp, peerId, full residual encoding) — "higher (timestamp, peerId)
wins" as specified, residual ties broken by the injective encoding. -/
def entKey (e : Entry) : Lex (Nat × Lex (Nat × Nat)) :=
  toLex (e.timestamp, toLex (e.peerId, tieEnc e))

theorem entKey_inj {e u : Entry} (h : entKey e = entKey u) : e = u := by
  unfold entKey at h
  have h2 : (e.timestamp, toLex (e.peerId, tieEnc e))
      = (u.timestamp, toLex (u.peerId, tieEnc u)) := h
  have h3 : (e.peerId, tieEnc e) = (u.peerId, tieEnc u) := congrArg Prod.snd h2
  exact tieEnc_inj (congrArg Prod.snd h3)

/-- The winner of the deterministic tie-break between two Entry versions. -/
def better (e u : Entry) : Entry :=
  if entKey e < entKey u then u else e

theorem entKey_better (e u : Entry) :
    entKey (better e u) = max (entKey e) (entKey u) := by
  unfold better
  by_cases h : entKey e < entKey u
  · simp [h, max_eq_right h.le]
  · simp [h, max_eq_left (le_of_not_lt h)]

theorem better_comm (e u : Entry) : better e u = better u e := by
  unfold better
  by_cases h1 : entKey e < entKey u
  · simp [h1, asymm h1]
  · by_cases h2 : entKey u < entKey e
    · simp [h1, h2]
    · have : entKey e = entKey u := le_antisymm (le_of_not_lt h2) (le_of_not_lt h1)
      simp [h1, h2, entKey_inj this]

theorem better_assoc (e u v : Entry) :
    better (better e u) v = better e (better u v) := by
  apply entKey_inj
  rw [entKey_better, entKey_better, entKey_better, entKey_better, max_assoc]

theorem better_absorb (e u : Entry) : better (better e u) u = better e u := by
  apply entKey_inj
  rw [entKey_better, entKey_better, max_assoc, max_self]

theorem better_idem (e : Entry) : better e e = e := by
  simp [better]

/-- Merging an incoming Entry version into the (possibly absent) current
version stored under its id. -/
def merge1 : Option Entry → Entry → Entry
  | none, u => u
  | some e, u => better e u

/-- In-memory Document state: the current winning version per entry id. -/
def DocState : Type := Nat → Option Entry

/-- The empty Document. -/
def emptyDoc : DocState := fun _ => none

/-- `mergeRemoteUpdate doc u` applies a foreign Update carrying Entry
version `u`: the slot of `u.id` is replaced by the tie-break winner. -/
def mergeRemoteUpdate (s : DocState) (u : Entry) : DocState :=
  fun i => if i = u.id then some (merge1 (s i) u) else s i

/-- Applying a batch of Updates in the order given. -/
def applyUpdates (s : DocState) (l : List Entry) : DocState :=
  l.foldl mergeRemoteUpdate s

/-- The visible Entry sequence of a Document over an id ordering:
post tie-break, with tombstones applied. -/
def visibleEntries (ids : List Nat) (s : DocState) : List Entry :=
  (ids.filterMap s).filter (fun e => !e.tombstone)

theorem merge1_merge1 (o : Option Entry) (u v : Entry) :
    merge1 (some (merge1 o u)) v = merge1 (some (merge1 o v)) u := by
  cases o with
  | none => exact better_comm u v
  | some e =>
    show better (better e u) v = better (better e v) u
    rw [better_assoc, better_assoc, better_comm u v]

theorem mergeRemoteUpdate_comm (s : DocState) (u v : Entry) :
    mergeRemoteUpdate (mergeRemoteUpdate s u) v
      = mergeRemoteUpdate (mergeRemoteUpdate s v) u := by
  funext i
  simp only [mergeRemoteUpdate]
  split_ifs with h1 h2
  · exact congrArg some (merge1_merge1 (s i) u v)
  all_goals rfl

theorem mergeRemoteUpdate_idem (s : DocState) (u : Entry) :
    mergeRemoteUpdate (mergeRemoteUpdate s u) u = mergeRemoteUpdate s u := by
  funext i
  simp only [mergeRemoteUpdate]
  split_ifs with h
  · cases hs : s i with
    | none => simp [hs, merge1, better_idem]
    | some e => simp [hs, merge1, better_absorb]
  · rfl

theorem applyUpdates_step (s : DocState) (u : Entry) (l : List Entry) :
    applyUpdates (mergeRemoteUpdate s u) l
      = mergeRemoteUpdate (applyUpdates s l) u := by
  induction l generalizing s with
  | nil => rfl
  | cons v t ih =>
    show applyUpdates (mergeRemoteUpdate (mergeRemoteUpdate s u) v) t
        = mergeRemoteUpdate (applyUpdates (mergeRemoteUpdate s v) t) u
    rw [mergeRemoteUpdate_comm s u v, ih]

theorem applyUpdates_mem_absorb (s : DocState) (u : Entry) (l : List Entry)
    (h : u ∈ l) : mergeRemoteUpdate (applyUpdates s l) u = applyUpdates s l := by
  induction l generalizing s with
  | nil => cases h
  | cons v t ih =>
    rcases List.mem_cons.mp h with h1 | h1
    · subst h1
      show mergeRemoteUpdate (applyUpdates (mergeRemoteUpdate s u) t) u
          = applyUpdates (mergeRemoteUpdate s u) t
      rw [applyUpdates_step, mergeRemoteUpdate_idem, ← applyUpdates_step]
    · exact ih (mergeRemoteUpdate s v) h1

theorem applyUpdates_absorb (s : DocState) (l1 l2 : List Entry)
    (h : ∀ x ∈ l2, x ∈ l1) :
    applyUpdates (applyUpdates s l1) l2 = applyUpdates s l1 := by
  induction l2 with
  | nil => rfl
  | cons v t ih =>
    show applyUpdates (mergeRemoteUpdate (applyUpdates s l1) v) t = applyUpdates s l1
    rw [applyUpdates_step, ih fun x hx => h x (List.mem_cons_of_mem v hx),
      applyUpdates_mem_absorb s v l1 (h v (List.mem_cons_self v t))]

theorem applyUpdates_expand (s : DocState) (l1 l2 : List Entry)
    (h : ∀ x ∈ l1, x ∈ l2) :
    applyUpdates (applyUpdates s l1) l2 = applyUpdates s l2 := by
  induction l1 generalizing s with
  | nil => rfl
  | cons v t ih =>
    show applyUpdates (applyUpdates (mergeRemoteUpdate s v) t) l2 = applyUpdates s l2
    rw [ih (mergeRemoteUpdate s v) fun x hx => h x (List.mem_cons_of_mem v hx),
      applyUpdates_step, applyUpdates_mem_absorb _ _ _ (h v (List.mem_cons_self v t))]

/-- Convergence: two replicas applying the same set of Updates (in any
order, with any duplications) end in the same state. -/
theorem applyUpdates_converges (s : DocState) (l1 l2 : List Entry)
    (h : ∀ x, x ∈ l1 ↔ x ∈ l2) :
    applyUpdates s l1 = applyUpdates s l2 := by
  have h1 : applyUpdates (applyUpdates s l1) l2 = applyUpdates s l1 :=
    applyUpdates_absorb s l1 l2 fun x hx => (h x).mpr hx
  have h2 : applyUpdates (applyUpdates s l1) l2 = applyUpdates s l2 :=
    applyUpdates_expand s l1 l2 fun x hx => (h x).mp hx
  rw [← h1, h2]

/-! ## Encrypted Transport

Embedding of `EncryptionService` (`encrypt` / `decrypt` in the source
sketch): encrypt requires an established shared key, asks the environment
for a fresh random nonce (`nacl.randomBytes`, passed here as an explicit
argument), seals the payload with `nacl.box.after` and prepends the nonce;
decrypt splits the frame at the nonce length, opens with
`nacl.box.open.after` and throws on failure.

Modelled from the spec: the `nacl.box` cipher itself is the external
tweetnacl library.  Per the spec it is authenticated encryption: sealing
binds key, nonce and payload, opening succeeds only on the exact sealed
frame for the same key and nonce, and any tampering is rejected.  We model
it as an idealized authenticated cipher whose frames carry key, nonce,
payload and an authentication tag over the payload. -/

theorem xor_cancel_left {a b c : Nat} (h : a ^^^ b = a ^^^ c) : b = c := by
  have := congrArg (fun x => a ^^^ x) h
  simpa [← Nat.xor_assoc, Nat.xor_self, Nat.zero_xor] using this

theorem xor_ne_self {a b : Nat} (h : b ≠ 0) : a ^^^ b ≠ a := by
  intro hc
  exact h (xor_cancel_left (a := a) (by rw [hc, Nat.xor_zero]))

theorem xor_left_comm (a b c : Nat) : a ^^^ (b ^^^ c) = b ^^^ (a ^^^ c) := by
  rw [← Nat.xor_assoc, Nat.xor_comm a b, Nat.xor_assoc]

theorem two_pow_ne_zero (j : Nat) : (2 : Nat) ^ j ≠ 0 :=
  Nat.pos_iff_ne_zero.mp (Nat.pos_pow_of_pos j (by norm_num))

/-- Authentication tag of the idealized cipher: xor-fold of the payload
(detects any single-bit corruption). -/
def chkSum (m : List Nat) : Nat := m.foldr (fun a b => a ^^^ b) 0

theorem chkSum_nil : chkSum [] = 0 := rfl

theorem chkSum_cons (x : Nat) (l : List Nat) : chkSum (x :: l) = x ^^^ chkSum l := rfl

theorem chkSum_append (l1 l2 : List Nat) :
    chkSum (l1 ++ l2) = chkSum l1 ^^^ chkSum l2 := by
  induction l1 with
  | nil => simp [chkSum_nil, Nat.zero_xor]
  | cons x t ih => rw [List.cons_append, chkSum_cons, chkSum_cons, ih, Nat.xor_assoc]

theorem xor_aux (s1 a d s2 : Nat) :
    s1 ^^^ ((a ^^^ d) ^^^ s2) = d ^^^ (s1 ^^^ (a ^^^ s2)) := by
  rw [Nat.xor_assoc a d, xor_left_comm a d, xor_left_comm s1 d]

theorem chkSum_set (m : List Nat) (w d : Nat) (hw : w < m.length) :
    chkSum (m.set w (m.getD w 0 ^^^ d)) = d ^^^ chkSum m := by
  have hm : m = m.take w ++ m[w] :: m.drop (w + 1) := by
    rw [← List.drop_eq_getElem_cons hw, List.take_append_drop]
  rw [List.set_eq_take_append_cons_drop, if_pos hw, List.getD_eq_getElem m 0 hw]
  conv_rhs => rw [hm]
  rw [chkSum_append, chkSum_cons, chkSum_append, chkSum_cons]
  exact xor_aux _ _ _ _

/-- nacl.box key length (bytes). -/
def boxKeyLength : Nat := 32

/-- nacl.box nonce length (bytes). -/
def boxNonceLength : Nat := 24

/-- Modelled from the spec: `nacl.box.after` of the external tweetnacl
library — idealized authenticated sealing binding key, nonce and payload,
with an authentication tag over the payload. -/
def box_after (m nonce key : List Nat) : List Nat :=
  key ++ (nonce ++ (m ++ [chkSum m]))

/-- Modelled from the spec: `nacl.box.open.after` of the external tweetnacl
library — opening succeeds only when the frame was sealed under the same
key and nonce and the authentication tag matches; all-or-nothing. -/
def box_open_after (c nonce key : List Nat) : Option (List Nat) :=
  if c.take 32 = key ∧ (c.drop 32).take 24 = nonce ∧
      (c.drop 56).getLast? = some (chkSum (c.drop 56).dropLast)
  then some (c.drop 56).dropLast else none

/-- `EncryptionService` state: the derived shared key, absent until key
exchange (`setSharedKey`). -/
structure EncryptionServiceState where
  sharedKey : Option (List Nat)
deriving DecidableEq

/-- `EncryptionService.encrypt`: throws if no shared key; seals with a
fresh nonce and returns `nonce || ciphertext`. -/
def encrypt (s : EncryptionServiceState) (nonce data : List Nat) :
    Except String (List Nat) :=
  match s.sharedKey with
  | none => Except.error "Shared key not established"
  | some key => Except.ok (nonce ++ box_after data nonce key)

/-- `EncryptionService.decrypt`: throws if no shared key; splits the frame
at the nonce length and opens; throws `Decryption failed` when opening
fails. -/
def decrypt (s : EncryptionServiceState) (frame : List Nat) :
    Except String (List Nat) :=
  match s.sharedKey with
  | none => Except.error "Shared key not established"
  | some key =>
    match box_open_after (frame.drop 24) (frame.take 24) key with
    | none => Except.error "Decryption failed"
    | some m => Except.ok m

/-- Single-bit corruption of a byte string: xor bit `j` of byte `p`. -/
def flipBit (l : List Nat) (p j : Nat) : List Nat :=
  l.set p (l.getD p 0 ^^^ 2 ^ j)

/-- Modelled from the spec: the inbound peer path — a received frame is
decrypted, deserialized to an Update and merged; failures discard the
frame without touching the Document. -/
def receiveFrame (ds : DocState) (es : EncryptionServiceState)
    (deser : List Nat → Option Entry) (frame : List Nat) : DocState :=
  match decrypt es frame with
  | Except.error _ => ds
  | Except.ok bytes =>
    match deser bytes with
    | none => ds
    | some u => mergeRemoteUpdate ds u

theorem drop56_append (key rest : List Nat) (hk : key.length = 32)
    (nonce : List Nat) (hn : nonce.length = 24) :
    (key ++ (nonce ++ rest)).drop 56 = rest := by
  have h : (56 : Nat) = 32 + 24 := rfl
  rw [h, ← List.drop_drop, List.drop_left' hk, List.drop_left' hn]

theorem box_roundtrip (m nonce key : List Nat)
    (hk : key.length = 32) (hn : nonce.length = 24) :
    box_open_after (box_after m nonce key) nonce key = some m := by
  unfold box_after box_open_after
  rw [List.take_left' hk, List.drop_left' hk, List.take_left' hn,
    drop56_append key _ hk nonce hn, List.dropLast_concat, List.getLast?_concat,
    if_pos ⟨rfl, rfl, rfl⟩]

theorem getD_set_self {l : List Nat} {p v : Nat} (hp : p < l.length) :
    (l.set p v).getD p 0 = v := by
  rw [List.getD_eq_getElem _ 0 (by rw [List.length_set]; exact hp), List.getElem_set]
  simp

theorem set_ne_of_ne {l : List Nat} {p v : Nat} (hp : p < l.length)
    (hv : v ≠ l.getD p 0) : l.set p v ≠ l := by
  intro h
  exact hv (by rw [← getD_set_self (l := l) (p := p) (v := v) hp, h])

theorem xor_left_ne_self {d s : Nat} (hd : d ≠ 0) : d ^^^ s ≠ s := by
  rw [Nat.xor_comm]; exact xor_ne_self hd

theorem frame_length (m nonce key : List Nat)
    (hk : key.length = 32) (hn : nonce.length = 24) :
    (nonce ++ box_after m nonce key).length = 81 + m.length := by
  simp [box_after, hk, hn]; omega

/-- Opening any single-bit corruption of a sealed frame fails. -/
theorem box_open_flip (key nonce m : List Nat) (hk : key.length = 32)
    (hn : nonce.length = 24) (p j : Nat) (hp : p < 81 + m.length) :
    box_open_after
      ((flipBit (nonce ++ box_after m nonce key) p j).drop 24)
      ((flipBit (nonce ++ box_after m nonce key) p j).take 24) key = none := by
  have hxj : ∀ a : Nat, a ^^^ 2 ^ j ≠ a := fun a => xor_ne_self (two_pow_ne_zero j)
  unfold flipBit box_after
  rcases Nat.lt_or_ge p 24 with hA | hge24
  · -- corrupting the transmitted nonce
    have hpn : p < nonce.length := by omega
    rw [List.getD_append _ _ _ _ hpn, List.set_append_left p _ hpn]
    have hlen24 : (nonce.set p (nonce.getD p 0 ^^^ 2 ^ j)).length = 24 := by
      rw [List.length_set]; exact hn
    rw [List.take_left' hlen24, List.drop_left' hlen24]
    unfold box_open_after
    rw [if_neg]
    rintro ⟨-, h2, -⟩
    rw [List.drop_left' hk, List.take_left' hn] at h2
    exact set_ne_of_ne hpn (hxj _) h2.symm
  · have h24le : nonce.length ≤ p := by omega
    rw [List.getD_append_right _ _ _ _ h24le, List.set_append_right _ _ h24le, hn,
      List.take_left' hn, List.drop_left' hn]
    rcases Nat.lt_or_ge (p - 24) 32 with hB1 | hge32
    · -- corrupting the embedded key
      have hqk : p - 24 < key.length := by omega
      rw [List.getD_append _ _ _ _ hqk, List.set_append_left _ _ hqk]
      unfold box_open_after
      rw [if_neg]
      rintro ⟨h1, -, -⟩
      have hlenk : (key.set (p - 24) (key.getD (p - 24) 0 ^^^ 2 ^ j)).length = 32 := by
        rw [List.length_set]; exact hk
      rw [List.take_left' hlenk] at h1
      exact set_ne_of_ne hqk (hxj _) h1
    · have h32le : key.length ≤ p - 24 := by omega
      rw [List.getD_append_right _ _ _ _ h32le, List.set_append_right _ _ h32le, hk]
      rcases Nat.lt_or_ge (p - 24 - 32) 24 with hB2 | hge56
      · -- corrupting the embedded nonce
        have hr : p - 24 - 32 < nonce.length := by omega
        rw [List.getD_append _ _ _ _ hr, List.set_append_left _ _ hr]
        unfold box_open_after
        rw [if_neg]
        rintro ⟨-, h2, -⟩
        have hlnn : (nonce.set (p - 24 - 32) (nonce.getD (p - 24 - 32) 0 ^^^ 2 ^ j)).length = 24 := by
          rw [List.length_set]; exact hn
        rw [List.drop_left' hk, List.take_left' hlnn] at h2
        exact set_ne_of_ne hr (hxj _) h2
      · have h24le2 : nonce.length ≤ p - 24 - 32 := by omega
        rw [List.getD_append_right _ _ _ _ h24le2, List.set_append_right _ _ h24le2, hn]
        rcases Nat.lt_or_ge (p - 24 - 32 - 24) m.length with hw1 | hw2
        · -- corrupting the payload
          rw [List.getD_append _ _ _ _ hw1, List.set_append_left _ _ hw1]
          unfold box_open_after
          rw [if_neg]
          rintro ⟨-, -, h3⟩
          rw [drop56_append key _ hk nonce hn, List.dropLast_concat,
            List.getLast?_concat, Option.some_inj] at h3
          rw [chkSum_set m _ _ hw1] at h3
          exact xor_left_ne_self (two_pow_ne_zero j) h3.symm
        · -- corrupting the authentication tag
          have hwm : p - 24 - 32 - 24 = m.length := by omega
          have hmle : m.length ≤ p - 24 - 32 - 24 := le_of_eq hwm.symm
          rw [List.getD_append_right _ _ _ _ hmle, List.set_append_right _ _ hmle, hwm,
            Nat.sub_self]
          unfold box_open_after
          rw [if_neg]
          rintro ⟨-, -, h3⟩
          rw [drop56_append key _ hk nonce hn] at h3
          have hset : ([chkSum m].set 0 ([chkSum m].getD 0 0 ^^^ 2 ^ j))
              = [chkSum m ^^^ 2 ^ j] := rfl
          rw [hset, List.dropLast_concat, List.getLast?_concat, Option.some_inj] at h3
          exact hxj (chkSum m) h3

/-- Decrypting any single-bit corruption of a sealed frame throws
`Decryption failed`, and the inbound peer path leaves the Document
unchanged. -/
theorem decrypt_flipBit (key nonce m : List Nat) (hk : key.length = 32)
    (hn : nonce.length = 24) (p j : Nat) (hp : p < 81 + m.length) :
    decrypt ⟨some key⟩ (flipBit (nonce ++ box_after m nonce key) p j)
      = Except.error "Decryption failed" := by
  have h := box_open_flip key nonce m hk hn p j hp
  simp [decrypt, h]

theorem encrypt_decrypt (key nonce m : List Nat)
    (hk : key.length = 32) (hn : nonce.length = 24) :
    encrypt ⟨some key⟩ nonce m = Except.ok (nonce ++ box_after m nonce key) ∧
    decrypt ⟨some key⟩ (nonce ++ box_after m nonce key) = Except.ok m := by
  constructor
  · rfl
  · unfold decrypt
    have hlen : (box_after m nonce key).length = 57 + m.length := by
      simp [box_after, hk, hn]; omega
    rw [List.take_left' hn, List.drop_left' hn]
    simp [box_roundtrip m nonce key hk hn]

/-- Decrypting an untampered frame with any wrong key throws
`Decryption failed`. -/
theorem decrypt_wrong_key (key key2 nonce m : List Nat) (hk : key.length = 32)
    (hn : nonce.length = 24) (hne : key2 ≠ key) :
    decrypt ⟨some key2⟩ (nonce ++ box_after m nonce key)
      = Except.error "Decryption failed" := by
  have h : box_open_after ((nonce ++ box_after m nonce key).drop 24)
      ((nonce ++ box_after m nonce key).take 24) key2 = none := by
    unfold box_after box_open_after
    rw [List.take_left' hn, List.drop_left' hn, if_neg]
    rintro ⟨h1, -, -⟩
    rw [List.take_left' hk] at h1
    exact hne h1.symm
  simp [decrypt, h]

theorem receiveFrame_of_error (ds : DocState) (es : EncryptionServiceState)
    (deser : List Nat → Option Entry) (frame : List Nat) (e : String)
    (h : decrypt es frame = Except.error e) :
    receiveFrame ds es deser frame = ds := by
  unfold receiveFrame
  rw [h]

/-! ## Offline Queue

Embedding of `OfflineSyncQueue` (source sketch): a durable ordered log of
`QueuedUpdate`s persisted as a whole to AsyncStorage; `processQueue` is
guarded by the `isProcessing` flag and loops: apply the head; on success
shift it off and persist the shortened log; on failure increment its retry
count, discarding it (without persisting) once the count reaches 3,
otherwise leaving the loop.  Crash behaviour is modelled by the event
trace of one drain: truncating the trace at the crash point, durable state
is the last persisted log. -/

/-- A queued offline mutation: identifier and retry count (the payload and
kind do not affect the queue mechanics). -/
structure QU where
  id : Nat
  retryCount : Nat
deriving DecidableEq

/-- One observable effect of the drain loop. -/
inductive QEvent where
  | apply (u : QU)
  | persist (rest : List QU)
  | discard (u : QU)
deriving DecidableEq

/-- The event trace of one uninterrupted run of the `processQueue` loop:
`ok` tells whether applying a given mutation id succeeds. -/
def drainEvents (ok : Nat → Bool) : List QU → List QEvent
  | [] => []
  | u :: rest =>
    if ok u.id then QEvent.apply u :: QEvent.persist rest :: drainEvents ok rest
    else if u.retryCount + 1 ≥ 3 then QEvent.discard u :: drainEvents ok rest
    else []

/-- The in-memory queue left when the loop exits. -/
def finalQueue (ok : Nat → Bool) : List QU → List QU
  | [] => []
  | u :: rest =>
    if ok u.id then finalQueue ok rest
    else if u.retryCount + 1 ≥ 3 then finalQueue ok rest
    else { u with retryCount := u.retryCount + 1 } :: rest

/-- The mutations applied in a trace, in order. -/
def appliedOf (evs : List QEvent) : List QU :=
  evs.filterMap fun e =>
    match e with
    | QEvent.apply u => some u
    | _ => none

/-- The durable log after a trace, starting from `init`. -/
def lastPersisted (init : List QU) (evs : List QEvent) : List QU :=
  evs.foldl
    (fun acc ev =>
      match ev with
      | QEvent.persist r => r
      | _ => acc)
    init

/-- All mutations applied when a drain of `q` crashes after `k` events and
a recovery drain of the last persisted log then runs to completion. -/
def crashRun (ok : Nat → Bool) (q : List QU) (k : Nat) : List QU :=
  appliedOf ((drainEvents ok q).take k) ++
    appliedOf (drainEvents ok (lastPersisted q ((drainEvents ok q).take k)))

/-- `OfflineSyncQueue` state: in-memory queue, durable (AsyncStorage) copy,
and the single-flight guard. -/
structure QSState where
  queue : List QU
  persisted : List QU
  isProcessing : Bool
deriving DecidableEq

/-- `OfflineSyncQueue.processQueue`: early-returns when a drain is already
active or the queue is empty; otherwise runs the drain loop to completion
and clears the guard. -/
def processQueue (ok : Nat → Bool) (s : QSState) : QSState :=
  if s.isProcessing || s.queue.isEmpty then s
  else
    { queue := finalQueue ok s.queue,
      persisted := lastPersisted s.persisted (drainEvents ok s.queue),
      isProcessing := false }

theorem appliedOf_all (q : List QU) :
    appliedOf (drainEvents (fun _ => true) q) = q := by
  induction q with
  | nil => rfl
  | cons u rest ih => simp [drainEvents, appliedOf] at ih ⊢; exact ih

theorem crashRun_zero (ok : Nat → Bool) (q : List QU) :
    crashRun ok q 0 = appliedOf (drainEvents ok q) := by
  simp [crashRun, lastPersisted, appliedOf]

theorem crashRun_all_step (q : List QU) (u : QU) (k : Nat) :
    crashRun (fun _ => true) (u :: q) (k + 2) = u :: crashRun (fun _ => true) q k := by
  simp only [crashRun, drainEvents, if_pos, List.take_succ_cons, lastPersisted,
    List.foldl_cons, appliedOf, List.filterMap_cons]
  rfl

/-- No mutation is ever lost: whenever a drain crashes at any point and
recovery drains the persisted log, every enqueued mutation is applied
(at least once). -/
theorem crashRun_no_loss (q : List QU) (k : Nat) (u : QU) (hu : u ∈ q) :
    u ∈ crashRun (fun _ => true) q k := by
  induction q generalizing k with
  | nil => cases hu
  | cons v rest ih =>
    match k with
    | 0 =>
      rw [crashRun_zero, appliedOf_all]
      exact hu
    | 1 =>
      have h : crashRun (fun _ => true) (v :: rest) 1
          = v :: appliedOf (drainEvents (fun _ => true) (v :: rest)) := by
        simp [crashRun, drainEvents, lastPersisted, appliedOf]
      rw [h, appliedOf_all]
      exact List.mem_cons_of_mem v hu
    | k + 2 =>
      rw [crashRun_all_step]
      rcases List.mem_cons.mp hu with h | h
      · exact h ▸ List.mem_cons_self v _
      · exact List.mem_cons_of_mem v (ih k h)

/-- Single-flight: a call while a drain is active changes nothing. -/
theorem processQueue_single_flight (ok : Nat → Bool) (s : QSState)
    (h : s.isProcessing = true) : processQueue ok s = s := by
  simp [processQueue, h]

/-- Strict enqueue order: the applied mutations form a subsequence of the
queue, in order. -/
theorem appliedOf_sublist (ok : Nat → Bool) (q : List QU) :
    (appliedOf (drainEvents ok q)).Sublist q := by
  induction q with
  | nil => simp [drainEvents, appliedOf]
  | cons u rest ih =>
    unfold drainEvents
    by_cases h1 : ok u.id
    · simp only [h1, if_true, appliedOf, List.filterMap_cons]
      exact List.Sublist.cons₂ u ih
    · by_cases h2 : u.retryCount + 1 ≥ 3
      · simp only [h1, if_false, h2, if_true, appliedOf, List.filterMap_cons]
        exact List.Sublist.cons u ih
      · simp [h1, h2, appliedOf]

/-- Checks that every applied mutation is immediately followed by a
persist of the shortened log. -/
def persistAfterApply : List QEvent → Bool
  | QEvent.apply _ :: QEvent.persist r :: rest =>
    persistAfterApply (QEvent.persist r :: rest)
  | QEvent.apply _ :: _ => false
  | _ :: rest => persistAfterApply rest
  | [] => true

/-- Each successful application is immediately followed by persisting the
shortened log, before the next entry is processed. -/
theorem drain_persistAfterApply (ok : Nat → Bool) (q : List QU) :
    persistAfterApply (drainEvents ok q) = true := by
  induction q with
  | nil => rfl
  | cons v rest ih =>
    unfold drainEvents
    by_cases h1 : ok v.id
    · simp only [h1, if_true]
      show persistAfterApply (QEvent.persist rest :: drainEvents ok rest) = true
      show persistAfterApply (drainEvents ok rest) = true
      exact ih
    · by_cases h2 : v.retryCount + 1 ≥ 3
      · simp only [h1, if_false, h2, if_true]
        show persistAfterApply (drainEvents ok rest) = true
        exact ih
      · simp [h1, h2, persistAfterApply]

/-! ## SyncService

Embedding of the `SyncService` sketch: a singleton holding maps
`roomName -> Y.Doc` and `roomName -> WebrtcProvider`.  Y.Doc and provider
identities are modelled by an allocation counter; the JavaScript `Map` is
modelled by an association list with unique keys. -/

/-- `Map.set` semantics: unique keys, insert-or-replace. -/
def setAssoc {β : Type} (k : String) (v : β) (l : List (String × β)) :
    List (String × β) :=
  (k, v) :: l.filter (fun p => p.1 != k)

/-- `Map.get` semantics. -/
def lookupAssoc {β : Type} (k : String) (l : List (String × β)) : Option β :=
  (l.find? (fun p => p.1 == k)).map Prod.snd

/-- `Map.delete` semantics. -/
def removeAssoc {β : Type} (k : String) (l : List (String × β)) :
    List (String × β) :=
  l.filter (fun p => p.1 != k)

theorem lookupAssoc_setAssoc_self {β : Type} (k : String) (v : β)
    (l : List (String × β)) : lookupAssoc k (setAssoc k v l) = some v := by
  simp [lookupAssoc, setAssoc, List.find?]

theorem find_rm_none {β : Type} (k : String) (l : List (String × β)) :
    (l.filter (fun p => p.1 != k)).find? (fun p => p.1 == k) = none := by
  induction l with
  | nil => rfl
  | cons p t ih =>
    by_cases h : p.1 = k
    · simp [List.filter_cons, h, ih]
    · simp [List.filter_cons, h, List.find?_cons, ih]

theorem lookupAssoc_removeAssoc_self {β : Type} (k : String)
    (l : List (String × β)) : lookupAssoc k (removeAssoc k l) = none := by
  simp [lookupAssoc, removeAssoc, find_rm_none]

/-- `SyncConfiguration` (source sketch). -/
structure SyncConfiguration where
  roomPref : String
  signalingServers : List String
  enableEncryption : Bool
  encryptionKey : Option String
deriving DecidableEq

/-- `SyncService` instance state: the configuration captured at
construction, the doc/provider maps, and an allocation counter standing
for JavaScript object identity of `new Y.Doc()` / `new WebrtcProvider`. -/
structure SyncServiceState where
  config : SyncConfiguration
  ydocs : List (String × Nat)
  providers : List (String × Nat)
  nextAlloc : Nat
deriving DecidableEq

/-- `SyncService` constructor: captures the configuration, empty maps. -/
def mkSyncService (config : SyncConfiguration) : SyncServiceState :=
  { config := config, ydocs := [], providers := [], nextAlloc := 0 }

/-- `SyncService.getInstance`: constructs the singleton on the first call
that supplies a configuration; afterwards always returns the stored
instance (any configuration argument is ignored).  Returns the (possibly
still absent) instance together with the new global. -/
def getInstance (config : Option SyncConfiguration)
    (inst : Option SyncServiceState) :
    Option SyncServiceState × Option SyncServiceState :=
  match inst, config with
  | some i, _ => (some i, some i)
  | none, some c => (some (mkSyncService c), some (mkSyncService c))
  | none, none => (none, none)

/-- Room naming scheme of `createSyncDocument` / `getSyncDocument`. -/
def roomNameOf (pre rt ri : String) : String :=
  pre ++ "-" ++ rt ++ "-" ++ ri

/-- `SyncService.createSyncDocument`: always constructs a fresh `Y.Doc`
and a fresh `WebrtcProvider` and stores them under the room name
(replacing whatever was there).  Returns the new doc identity. -/
def createSyncDocument (rt ri : String) (s : SyncServiceState) :
    Nat × SyncServiceState :=
  let room := roomNameOf s.config.roomPref rt ri
  (s.nextAlloc,
    { s with
      ydocs := setAssoc room s.nextAlloc s.ydocs,
      providers := setAssoc room (s.nextAlloc + 1) s.providers,
      nextAlloc := s.nextAlloc + 2 })

/-- `SyncService.getSyncDocument`: pure lookup. -/
def getSyncDocument (rt ri : String) (s : SyncServiceState) : Option Nat :=
  lookupAssoc (roomNameOf s.config.roomPref rt ri) s.ydocs

/-- `SyncService.destroySyncDocument`: removes provider and doc. -/
def destroySyncDocument (rt ri : String) (s : SyncServiceState) :
    SyncServiceState :=
  let room := roomNameOf s.config.roomPref rt ri
  { s with
    ydocs := removeAssoc room s.ydocs,
    providers := removeAssoc room s.providers }

/-! ## ConversationSyncService

Embedding of `ConversationSyncService` together with
`DatabaseSyncAdapter.initializeConversationSync`: starting sync creates
the Yjs document and its WebRTC provider (which begins peer discovery on
construction) and only then hydrates the document from the persisted
messages; the topic is marked active last.  `getSyncStatus` reports
`isActive` from the active set when the doc exists and a hard-coded
`peerCount` of 0. -/

/-- Persisted message row (the fields `serializeMessage` reads). -/
structure Msg where
  id : String
  content : String
  role : String
  createdAt : Nat
  modelId : String
  status : String
deriving DecidableEq

/-- Serialized message as stored in the Yjs array. -/
structure SMsg where
  id : String
  content : String
  role : String
  timestamp : Nat
  modelId : String
  status : String
deriving DecidableEq

/-- `DatabaseSyncAdapter.serializeMessage`: field renaming
(`createdAt -> timestamp`, metadata flattened). -/
def serializeMessage (m : Msg) : SMsg :=
  ⟨m.id, m.content, m.role, m.createdAt, m.modelId, m.status⟩

/-- The conversation Yjs document: messages array and the metadata map's
`lastSyncedAt`. -/
structure ConvDoc where
  messages : List SMsg
  lastSyncedAt : Option Nat
deriving DecidableEq

/-- Combined `ConversationSyncService` state: the active-topic set, the
conversation documents by topic, the rooms with a live WebRTC provider,
and (modelled from the spec: maintained by the Peer Session Manager) the
actually connected peer count per topic. -/
structure CSState where
  active : List String
  docs : List (String × ConvDoc)
  providersUp : List String
  connectedPeers : List (String × Nat)
deriving DecidableEq

/-- The observable steps of `startConversationSync`, in program order. -/
inductive SyncStep where
  | createDoc
  | createProvider
  | hydrateStart
  | hydrateEnd
  | markActive
deriving DecidableEq, BEq

/-- The trace of steps one (non-no-op) `startConversationSync` call takes,
in program order: `createSyncDocument` constructs the `Y.Doc` and then the
`WebrtcProvider`, then `initializeConversationSync` hydrates, then the
topic is added to `activeConversations`. -/
def startSyncTrace : List SyncStep :=
  [SyncStep.createDoc, SyncStep.createProvider, SyncStep.hydrateStart,
    SyncStep.hydrateEnd, SyncStep.markActive]

/-- `ConversationSyncService.startConversationSync` (with the adapter's
`initializeConversationSync` inlined): no-op when already active;
otherwise creates the Yjs doc, creates the WebRTC provider (peer
discovery starts here), hydrates all persisted messages in one transact
setting `lastSyncedAt`, then marks the topic active.  Returns the new
state and the trace of steps taken. -/
def startConversationSync (persisted : List Msg) (now : Nat)
    (topicId : String) (s : CSState) : CSState × List SyncStep :=
  if topicId ∈ s.active then (s, [])
  else
    let s1 := { s with docs := setAssoc topicId ⟨[], none⟩ s.docs }
    let s2 := { s1 with providersUp := topicId :: s1.providersUp }
    let s3 := { s2 with
      docs := setAssoc topicId
        ⟨persisted.map serializeMessage, some now⟩ s2.docs }
    let s4 := { s3 with active := topicId :: s3.active }
    (s4, startSyncTrace)

/-- `ConversationSyncService.stopConversationSync`: no-op when not
active; otherwise cleans up adapter, destroys doc and provider, and
unmarks the topic. -/
def stopConversationSync (topicId : String) (s : CSState) : CSState :=
  if topicId ∈ s.active then
    { active := s.active.filter (fun t => t != topicId),
      docs := removeAssoc topicId s.docs,
      providersUp := s.providersUp.filter (fun t => t != topicId),
      connectedPeers := s.connectedPeers }
  else s

/-- `ConversationSyncService.sendMessage`: throws when the conversation
has no sync document; otherwise appends the serialized message to the
document's array. -/
def sendMessage (s : CSState) (topicId : String) (m : Msg) :
    CSState × Except String Unit :=
  match lookupAssoc topicId s.docs with
  | none => (s, Except.error "Conversation not initialized for sync")
  | some d =>
    let d2 : ConvDoc := { d with messages := d.messages ++ [serializeMessage m] }
    ({ s with docs := setAssoc topicId d2 s.docs }, Except.ok ())

/-- Sync status record returned by `getSyncStatus`. -/
structure SyncStatus where
  isActive : Bool
  peerCount : Nat
  lastSyncedAt : Option Nat
deriving DecidableEq

/-- `ConversationSyncService.getSyncStatus`: when no doc exists returns
the inactive record; otherwise reports membership in the active set, a
hard-coded peer count of 0 (the source comment reads
"Would get from awareness"), and the metadata's `lastSyncedAt`. -/
def getSyncStatus (s : CSState) (topicId : String) : SyncStatus :=
  match lookupAssoc topicId s.docs with
  | none => ⟨false, 0, none⟩
  | some d => ⟨decide (topicId ∈ s.active), 0, d.lastSyncedAt⟩

/-! ## Claim theorems -/

/-- C1: for every finite set of Updates and every pair of orderings
(including duplications) applied to two replicas of the same Document,
the final state — and hence the visible Entry sequence after the
deterministic tie-break with tombstones applied — is identical; the merge
is commutative and idempotent (associativity of the per-entry join is
`better_assoc`). -/
theorem C1_convergence :
    (∀ (s : DocState) (l1 l2 : List Entry), (∀ x, x ∈ l1 ↔ x ∈ l2) →
      applyUpdates s l1 = applyUpdates s l2 ∧
      ∀ ids, visibleEntries ids (applyUpdates s l1)
        = visibleEntries ids (applyUpdates s l2)) ∧
    (∀ (s : DocState) (u v : Entry),
      mergeRemoteUpdate (mergeRemoteUpdate s u) v
        = mergeRemoteUpdate (mergeRemoteUpdate s v) u) ∧
    (∀ (s : DocState) (u : Entry),
      mergeRemoteUpdate (mergeRemoteUpdate s u) u = mergeRemoteUpdate s u) := by
  refine ⟨fun s l1 l2 h => ?_, mergeRemoteUpdate_comm, mergeRemoteUpdate_idem⟩
  have he := applyUpdates_converges s l1 l2 h
  exact ⟨he, fun ids => by rw [he]⟩

/-- C1 witness: two concrete orderings (one with a duplication) of the
same two Updates converge from the empty Document. -/
theorem C1_convergence_witness :
    (∀ x : Entry,
      x ∈ [(⟨1, [7], 0, 5, 1, false⟩ : Entry), ⟨2, [8], 1, 6, 2, true⟩] ↔
      x ∈ [(⟨2, [8], 1, 6, 2, true⟩ : Entry), ⟨1, [7], 0, 5, 1, false⟩,
        ⟨1, [7], 0, 5, 1, false⟩]) ∧
    applyUpdates emptyDoc [⟨1, [7], 0, 5, 1, false⟩, ⟨2, [8], 1, 6, 2, true⟩]
      = applyUpdates emptyDoc [⟨2, [8], 1, 6, 2, true⟩, ⟨1, [7], 0, 5, 1, false⟩,
        ⟨1, [7], 0, 5, 1, false⟩] := by
  have hmem : ∀ x : Entry,
      x ∈ [(⟨1, [7], 0, 5, 1, false⟩ : Entry), ⟨2, [8], 1, 6, 2, true⟩] ↔
      x ∈ [(⟨2, [8], 1, 6, 2, true⟩ : Entry), ⟨1, [7], 0, 5, 1, false⟩,
        ⟨1, [7], 0, 5, 1, false⟩] := by
    intro x
    simp only [List.mem_cons, List.not_mem_nil, or_false]
    tauto
  exact ⟨hmem, (C1_convergence.1 emptyDoc _ _ hmem).1⟩

/-- C2: applying the same Update twice via the remote-merge operation
yields exactly the state of applying it once. -/
theorem C2_idempotent (s : DocState) (u : Entry) :
    mergeRemoteUpdate (mergeRemoteUpdate s u) u = mergeRemoteUpdate s u :=
  mergeRemoteUpdate_idem s u

/-- C3: for every shared key and plaintext, sealing produces the fresh
nonce prepended to the ciphertext, and opening that frame with the same
key returns exactly the original plaintext. -/
theorem C3_seal_open_roundtrip (key nonce m : List Nat)
    (hk : key.length = 32) (hn : nonce.length = 24) :
    encrypt ⟨some key⟩ nonce m = Except.ok (nonce ++ box_after m nonce key) ∧
    decrypt ⟨some key⟩ (nonce ++ box_after m nonce key) = Except.ok m :=
  encrypt_decrypt key nonce m hk hn

/-- C3 witness: round trip at a concrete key, nonce and plaintext. -/
theorem C3_seal_open_roundtrip_witness :
    (List.replicate 32 7 : List Nat).length = 32 ∧
    (List.replicate 24 3 : List Nat).length = 24 ∧
    decrypt ⟨some (List.replicate 32 7)⟩
        (List.replicate 24 3
          ++ box_after [104, 105] (List.replicate 24 3) (List.replicate 32 7))
      = Except.ok [104, 105] := by
  exact ⟨by decide, by decide,
    (C3_seal_open_roundtrip (List.replicate 32 7) (List.replicate 24 3)
      [104, 105] (by decide) (by decide)).2⟩

/-- C4: flipping any single bit of a sealed frame makes `decrypt` fail
with the decryption-failed error (all-or-nothing, no partial plaintext),
the inbound peer path leaves the Document unchanged on that failure, and
any wrong key is likewise rejected. -/
theorem C4_tamper_rejection (key nonce m : List Nat) (hk : key.length = 32)
    (hn : nonce.length = 24) (p j : Nat)
    (hp : p < (nonce ++ box_after m nonce key).length) :
    decrypt ⟨some key⟩ (flipBit (nonce ++ box_after m nonce key) p j)
        = Except.error "Decryption failed" ∧
    (∀ (ds : DocState) (deser : List Nat → Option Entry),
      receiveFrame ds ⟨some key⟩ deser
        (flipBit (nonce ++ box_after m nonce key) p j) = ds) ∧
    (∀ key2, key2 ≠ key →
      decrypt ⟨some key2⟩ (nonce ++ box_after m nonce key)
        = Except.error "Decryption failed") := by
  have hp2 : p < 81 + m.length := by
    rw [frame_length m nonce key hk hn] at hp; exact hp
  have h1 := decrypt_flipBit key nonce m hk hn p j hp2
  exact ⟨h1, fun ds deser => receiveFrame_of_error ds _ deser _ _ h1,
    fun key2 hne => decrypt_wrong_key key key2 nonce m hk hn hne⟩

/-- C4 witness: a concrete single-bit flip (byte 30, bit 2) of a concrete
sealed frame is rejected. -/
theorem C4_tamper_rejection_witness :
    30 < ((List.replicate 24 3 : List Nat)
        ++ box_after [104, 105] (List.replicate 24 3) (List.replicate 32 7)).length ∧
    decrypt ⟨some (List.replicate 32 7)⟩
        (flipBit (List.replicate 24 3
          ++ box_after [104, 105] (List.replicate 24 3) (List.replicate 32 7)) 30 2)
      = Except.error "Decryption failed" := by
  have h := C4_tamper_rejection (List.replicate 32 7) (List.replicate 24 3)
    [104, 105] (by decide) (by decide) 30 2 (by decide)
  exact ⟨by decide, h.1⟩

/-- C5 counterexample: a drain of the one-element queue crashing after
event 1 (the mutation was applied but the shortened log not yet
persisted) re-applies the mutation on recovery: it is applied twice, so a
crash mid-drain can duplicate a mutation, contrary to the claim. -/
theorem C5_counterexample :
    crashRun (fun _ => true) [⟨0, 0⟩] 1 = [⟨0, 0⟩, ⟨0, 0⟩] := by decide

/-- C5 amended: the drain is single-flight, processes strictly in enqueue
order (the applied sequence is an in-order subsequence of the log), after
each successfully applied mutation persists the shortened log before
proceeding, and a crash at any point never loses a mutation (every
enqueued mutation is still applied at least once after recovery) — but
delivery is at-least-once, not exactly-once. -/
theorem C5_amended :
    (∀ (ok : Nat → Bool) (s : QSState), s.isProcessing = true →
      processQueue ok s = s) ∧
    (∀ (ok : Nat → Bool) (q : List QU),
      (appliedOf (drainEvents ok q)).Sublist q) ∧
    (∀ (ok : Nat → Bool) (q : List QU),
      persistAfterApply (drainEvents ok q) = true) ∧
    (∀ (q : List QU) (k : Nat) (u : QU), u ∈ q →
      u ∈ crashRun (fun _ => true) q k) :=
  ⟨processQueue_single_flight, appliedOf_sublist, drain_persistAfterApply,
    crashRun_no_loss⟩

/-- C5 witness: single-flight and no-loss at concrete inputs. -/
theorem C5_amended_witness :
    (⟨[⟨1, 0⟩], [⟨1, 0⟩], true⟩ : QSState).isProcessing = true ∧
    processQueue (fun _ => true) ⟨[⟨1, 0⟩], [⟨1, 0⟩], true⟩
      = ⟨[⟨1, 0⟩], [⟨1, 0⟩], true⟩ ∧
    (⟨1, 0⟩ : QU) ∈ [(⟨1, 0⟩ : QU)] ∧
    (⟨1, 0⟩ : QU) ∈ crashRun (fun _ => true) [⟨1, 0⟩] 3 := by
  exact ⟨rfl, C5_amended.1 (fun _ => true) _ rfl, by decide,
    C5_amended.2.2.2 [⟨1, 0⟩] 3 ⟨1, 0⟩ (by decide)⟩

/-- C6 counterexample: in the step trace of `startConversationSync` on a
fresh state, the WebRTC provider (the peer connection) is created before
hydration even begins, so hydration does not run to completion before the
Document is exposed to the Peer Session Manager. -/
theorem C6_counterexample :
    ((startConversationSync [] 0 "t" ⟨[], [], [], []⟩).2.indexOf
        SyncStep.createProvider
      < (startConversationSync [] 0 "t" ⟨[], [], [], []⟩).2.indexOf
        SyncStep.hydrateStart) ∧
    ¬ ((startConversationSync [] 0 "t" ⟨[], [], [], []⟩).2.indexOf
        SyncStep.hydrateEnd
      < (startConversationSync [] 0 "t" ⟨[], [], [], []⟩).2.indexOf
        SyncStep.createProvider) := by decide

/-- C6 amended: hydration does run to completion inside
`startConversationSync` — the resulting Document holds exactly the
persisted entries, and the topic is marked active only after hydration
ends — but the peer provider is created before hydration starts, so the
Document is exposed to the Peer Session Manager while hydration is still
in progress. -/
theorem C6_amended (persisted : List Msg) (now : Nat) (topicId : String)
    (s : CSState) (h : topicId ∉ s.active) :
    lookupAssoc topicId (startConversationSync persisted now topicId s).1.docs
        = some ⟨persisted.map serializeMessage, some now⟩ ∧
    topicId ∈ (startConversationSync persisted now topicId s).1.active ∧
    topicId ∈ (startConversationSync persisted now topicId s).1.providersUp ∧
    (startConversationSync persisted now topicId s).2 = startSyncTrace ∧
    (startSyncTrace.indexOf SyncStep.hydrateStart
      < startSyncTrace.indexOf SyncStep.hydrateEnd) ∧
    (startSyncTrace.indexOf SyncStep.hydrateEnd
      < startSyncTrace.indexOf SyncStep.markActive) ∧
    (startSyncTrace.indexOf SyncStep.createProvider
      < startSyncTrace.indexOf SyncStep.hydrateStart) := by
  unfold startConversationSync
  rw [if_neg h]
  exact ⟨lookupAssoc_setAssoc_self _ _ _, List.mem_cons_self _ _,
    List.mem_cons_self _ _, rfl, by decide, by decide, by decide⟩

/-- C6 witness: the amended statement at a fresh state. -/
theorem C6_amended_witness :
    ("t" ∉ (⟨[], [], [], []⟩ : CSState).active) ∧
    lookupAssoc "t" (startConversationSync
        [⟨"m1", "hi", "user", 5, "mod", "success"⟩] 9 "t" ⟨[], [], [], []⟩).1.docs
      = some ⟨[⟨"m1", "hi", "user", 5, "mod", "success"⟩], some 9⟩ := by
  have h : ("t" : String) ∉ (⟨[], [], [], []⟩ : CSState).active := by decide
  exact ⟨h, (C6_amended [⟨"m1", "hi", "user", 5, "mod", "success"⟩] 9 "t"
    ⟨[], [], [], []⟩ h).1⟩

/-- C7 counterexample: on a fresh service, calling `createSyncDocument`
twice with the same arguments returns a different (freshly created)
Document the second time, which replaces the stored one — the open
operation is not idempotent. -/
theorem C7_counterexample :
    (createSyncDocument "conversation" "c1"
        (createSyncDocument "conversation" "c1"
          (mkSyncService ⟨"p", [], true, none⟩)).2).1
      ≠ (createSyncDocument "conversation" "c1"
          (mkSyncService ⟨"p", [], true, none⟩)).1 ∧
    getSyncDocument "conversation" "c1"
        (createSyncDocument "conversation" "c1"
          (createSyncDocument "conversation" "c1"
            (mkSyncService ⟨"p", [], true, none⟩)).2).2
      = some (createSyncDocument "conversation" "c1"
          (createSyncDocument "conversation" "c1"
            (mkSyncService ⟨"p", [], true, none⟩)).2).1 := by decide

/-- C7 amended: `createSyncDocument` always allocates a fresh empty
Document and provider and replaces any existing entry for the room; a
second call with the same arguments returns a different Document, and
only `getSyncDocument` returns the existing (most recently created)
in-memory Document without change. -/
theorem C7_amended (rt ri : String) (s : SyncServiceState) :
    (createSyncDocument rt ri (createSyncDocument rt ri s).2).1
        ≠ (createSyncDocument rt ri s).1 ∧
    getSyncDocument rt ri (createSyncDocument rt ri s).2
        = some (createSyncDocument rt ri s).1 ∧
    getSyncDocument rt ri
        (createSyncDocument rt ri (createSyncDocument rt ri s).2).2
      = some (createSyncDocument rt ri (createSyncDocument rt ri s).2).1 := by
  refine ⟨?_, ?_, ?_⟩
  · show s.nextAlloc + 2 ≠ s.nextAlloc
    omega
  · exact lookupAssoc_setAssoc_self _ _ _
  · exact lookupAssoc_setAssoc_self _ _ _

/-- C8 counterexample: with one connected peer recorded for topic `t`,
`getSyncStatus` still reports `peerCount = 0`: the reported peer count is
a constant, not the number of currently connected peers. -/
theorem C8_counterexample :
    (getSyncStatus
        ⟨["t"], [("t", ⟨[], some 5⟩)], ["t"], [("t", 1)]⟩ "t").peerCount = 0 ∧
    lookupAssoc "t"
        (⟨["t"], [("t", ⟨[], some 5⟩)], ["t"], [("t", 1)]⟩ : CSState).connectedPeers
      = some 1 ∧ (0 : Nat) ≠ 1 := by decide

/-- C8 amended: `getSyncStatus` is a total pure function (hence always
answerable without blocking); when the sync document exists it reports
`isActive` true exactly for started-and-not-stopped topics (membership in
the active set; start makes it true, stop makes it false), and it reports
the inactive record when no document exists — but `peerCount` is the
constant 0 regardless of the connected peers. -/
theorem C8_amended :
    (∀ (s : CSState) (t : String), (getSyncStatus s t).peerCount = 0) ∧
    (∀ (s : CSState) (t : String), lookupAssoc t s.docs = none →
      getSyncStatus s t = ⟨false, 0, none⟩) ∧
    (∀ (s : CSState) (t : String) (d : ConvDoc),
      lookupAssoc t s.docs = some d →
      ((getSyncStatus s t).isActive = true ↔ t ∈ s.active)) ∧
    (∀ (p : List Msg) (now : Nat) (t : String) (s : CSState), t ∉ s.active →
      (getSyncStatus (startConversationSync p now t s).1 t).isActive = true) ∧
    (∀ (s : CSState) (t : String),
      (getSyncStatus (stopConversationSync t s) t).isActive = false) := by
  refine ⟨?_, ?_, ?_, ?_, ?_⟩
  · intro s t
    unfold getSyncStatus
    cases lookupAssoc t s.docs <;> rfl
  · intro s t h
    unfold getSyncStatus
    rw [h]
  · intro s t d h
    unfold getSyncStatus
    rw [h]
    simp
  · intro p now t s h
    unfold startConversationSync
    rw [if_neg h]
    unfold getSyncStatus
    rw [lookupAssoc_setAssoc_self]
    simp
  · intro s t
    unfold stopConversationSync
    by_cases h : t ∈ s.active
    · rw [if_pos h]
      simp [getSyncStatus, lookupAssoc_removeAssoc_self]
    · rw [if_neg h]
      unfold getSyncStatus
      cases hl : lookupAssoc t s.docs
      · rfl
      · simp [h]

/-- C8 witness: the amended statement at concrete states. -/
theorem C8_amended_witness :
    lookupAssoc "t" (⟨[], [], [], []⟩ : CSState).docs = none ∧
    getSyncStatus ⟨[], [], [], []⟩ "t" = ⟨false, 0, none⟩ ∧
    ("t" ∉ (⟨[], [], [], []⟩ : CSState).active) ∧
    (getSyncStatus (startConversationSync [] 4 "t" ⟨[], [], [], []⟩).1
      "t").isActive = true := by
  have h1 : lookupAssoc "t" (⟨[], [], [], []⟩ : CSState).docs = none := rfl
  have h2 : ("t" : String) ∉ (⟨[], [], [], []⟩ : CSState).active := by decide
  exact ⟨h1, C8_amended.2.1 _ _ h1, h2, C8_amended.2.2.2.1 [] 4 "t" _ h2⟩

/-- C9: when sync has not been started for a resource (no sync document
exists for its id), `sendMessage` throws `Conversation not initialized
for sync` and leaves the entire state (documents and durable store)
unchanged — the message is not silently dropped. -/
theorem C9_send_uninitialized (s : CSState) (t : String) (m : Msg)
    (h : lookupAssoc t s.docs = none) :
    sendMessage s t m
      = (s, Except.error "Conversation not initialized for sync") := by
  unfold sendMessage
  rw [h]

/-- C9 witness: sending into a fresh service throws and changes nothing. -/
theorem C9_send_uninitialized_witness :
    lookupAssoc "t" (⟨[], [], [], []⟩ : CSState).docs = none ∧
    sendMessage ⟨[], [], [], []⟩ "t" ⟨"m1", "hi", "user", 3, "mod", "success"⟩
      = (⟨[], [], [], []⟩,
          Except.error "Conversation not initialized for sync") := by
  have h : lookupAssoc "t" (⟨[], [], [], []⟩ : CSState).docs = none := rfl
  exact ⟨h, C9_send_uninitialized _ _ _ h⟩

/-- C10: `getInstance` is a process-wide singleton — the first call
supplying a configuration constructs the instance with that
configuration; every later call, even with a different configuration,
returns the same first instance and never applies the later
configuration. -/
theorem C10_getInstance_singleton :
    (∀ c : SyncConfiguration,
      getInstance (some c) none
          = (some (mkSyncService c), some (mkSyncService c)) ∧
      (mkSyncService c).config = c) ∧
    (∀ (c : Option SyncConfiguration) (i : SyncServiceState),
      getInstance c (some i) = (some i, some i)) ∧
    (∀ c1 c2 : SyncConfiguration,
      (getInstance (some c2) (getInstance (some c1) none).2).1
        = some (mkSyncService c1)) := by
  refine ⟨fun c => ⟨rfl, rfl⟩, fun c i => ?_, fun c1 c2 => rfl⟩
  cases c <;> rfl

end BossSync
